import Mathlib

/-
Verification of the Runtime Capabilities Analysis (RCA) lattice and
application-generator-set algebra, embedded from
src/compiler/qsc_rca/src/lib.rs.

Machine integers do not appear in the embedded fragment; the bitflag set
RuntimeFeatureFlags is embedded as a finite set over the 24 named feature
bits, and the external RuntimeCapabilityFlags as a finite set over its five
named capabilities.  Functions that can abort at runtime return Option
(none models the abort).
-/

/-- The two-point runtime kind lattice from lib.rs. -/
inductive RuntimeKind where
  | Static
  | Dynamic
deriving DecidableEq

/-- RuntimeKind::aggregate from lib.rs: match on the second operand; Static
returns self, Dynamic returns Dynamic. -/
def RuntimeKind.aggregate : RuntimeKind → RuntimeKind → RuntimeKind
  | self, .Static => self
  | _, .Dynamic => .Dynamic

/-- ValueKind from lib.rs: an array kind carrying content and size runtime
kinds, or an element kind carrying a single runtime kind. -/
inductive ValueKind where
  | Array (content size : RuntimeKind)
  | Element (k : RuntimeKind)
deriving DecidableEq

/-- ValueKind::aggregate from lib.rs: element-wise aggregation of matching
variants; mismatched variants abort (modeled as none). -/
def ValueKind.aggregate : ValueKind → ValueKind → Option ValueKind
  | .Array c s, .Array c2 s2 => some (.Array (c.aggregate c2) (s.aggregate s2))
  | .Element k, .Element k2 => some (.Element (k.aggregate k2))
  | .Array _ _, .Element _ => none
  | .Element _, .Array _ _ => none

/-- ValueKind::is_dynamic from lib.rs. -/
def ValueKind.is_dynamic : ValueKind → Bool
  | .Array c s => c = RuntimeKind.Dynamic ∨ s = RuntimeKind.Dynamic
  | .Element k => k = RuntimeKind.Dynamic

/-- ValueKind::project_onto_variant from lib.rs: the first argument is self,
the second is the target variant; returns the updated target. -/
def ValueKind.project_onto_variant : ValueKind → ValueKind → ValueKind
  | .Array c s, .Array _ _ => .Array c s
  | .Element k, .Array _ _ => .Array k k
  | self, .Element _ =>
      .Element (if self.is_dynamic then .Dynamic else .Static)

/-- True when the two value kinds use the same constructor. -/
def ValueKind.sameVariant : ValueKind → ValueKind → Bool
  | .Array _ _, .Array _ _ => true
  | .Element _, .Element _ => true
  | _, _ => false

/-- The 24 named runtime feature bits of the RuntimeFeatureFlags bitflag set
in lib.rs, in bit order 0 to 23. -/
inductive RuntimeFeature where
  | UseOfDynamicBool
  | UseOfDynamicInt
  | UseOfDynamicPauli
  | UseOfDynamicRange
  | UseOfDynamicDouble
  | UseOfDynamicQubit
  | UseOfDynamicBigInt
  | UseOfDynamicString
  | UseOfDynamicallySizedArray
  | UseOfDynamicUdt
  | UseOfDynamicArrowFunction
  | UseOfDynamicArrowOperation
  | CallToCyclicFunctionWithDynamicArg
  | CyclicOperationSpec
  | CallToCyclicOperation
  | CallToDynamicCallee
  | CallToUnresolvedCallee
  | ForwardBranchingOnDynamicValue
  | DynamicQubitAllocation
  | DynamicResultAllocation
  | UseOfDynamicIndex
  | ReturnWithinDynamicScope
  | LoopWithDynamicCondition
  | UseOfClosure
deriving DecidableEq

/-- A RuntimeFeatureFlags value: the set of named feature bits that are set.
Bitwise OR is set union; contains is membership. -/
abbrev RuntimeFeatureFlags := Finset RuntimeFeature

/-- Modelled from the spec: RuntimeCapabilityFlags lives in qsc_frontend
(outside src/); the spec describes it as an external bitflag lattice with the
five capabilities below, with bitwise OR as union and intersects as non-empty
intersection. -/
inductive Capability where
  | ForwardBranching
  | BackwardsBranching
  | IntegerComputations
  | FloatingPointComputations
  | HigherLevelConstructs
deriving DecidableEq

/-- A RuntimeCapabilityFlags value, as the set of named capability bits. -/
abbrev RuntimeCapabilityFlags := Finset Capability

/-- QuantumProperties from lib.rs. -/
structure QuantumProperties where
  runtime_features : RuntimeFeatureFlags
  value_kind : ValueKind
deriving DecidableEq

/-- ComputeKind from lib.rs. -/
inductive ComputeKind where
  | Classical
  | Quantum (props : QuantumProperties)
deriving DecidableEq

/-- ComputeKind::aggregate from lib.rs: if the second operand is Classical
return self; if self is Classical return the second operand; otherwise OR the
runtime features and aggregate the value kinds (which can abort on mismatched
variants, modeled as none). -/
def ComputeKind.aggregate : ComputeKind → ComputeKind → Option ComputeKind
  | self, .Classical => some self
  | .Classical, .Quantum vq => some (.Quantum vq)
  | .Quantum sq, .Quantum vq =>
      (sq.value_kind.aggregate vq.value_kind).map fun vk =>
        .Quantum ⟨sq.runtime_features ∪ vq.runtime_features, vk⟩

/-- ArrayParamApplication from lib.rs: the three non-trivial lattice points of
an array parameter. -/
structure ArrayParamApplication where
  static_content_dynamic_size : ComputeKind
  dynamic_content_static_size : ComputeKind
  dynamic_content_dynamic_size : ComputeKind
deriving DecidableEq

/-- ParamApplication from lib.rs. -/
inductive ParamApplication where
  | Element (ck : ComputeKind)
  | Array (apa : ArrayParamApplication)
deriving DecidableEq

/-- ApplicationGeneratorSet from lib.rs. -/
structure ApplicationGeneratorSet where
  inherent : ComputeKind
  dynamic_param_applications : List ParamApplication
deriving DecidableEq

/-- One iteration of the loop in generate_application_compute_kind from
lib.rs: project the argument value kind onto the variant of the parameter
application, then aggregate the selected parameter compute kind.  The
unreachable defensive aborts on variant mismatch are modeled as none. -/
def applyParamApplication (ck : ComputeKind) (argVk : ValueKind)
    (pa : ParamApplication) : Option ComputeKind :=
  let mapped : ValueKind :=
    match pa with
    | .Array _ => argVk.project_onto_variant (.Array .Static .Static)
    | .Element _ => argVk.project_onto_variant (.Element .Static)
  match mapped with
  | .Element .Dynamic =>
      match pa with
      | .Element param_compute_kind => ck.aggregate param_compute_kind
      | .Array _ => none
  | .Array c s =>
      match pa with
      | .Array apa =>
          let param_compute_kind : ComputeKind :=
            match c, s with
            | .Static, .Static => .Classical
            | .Dynamic, .Static => apa.dynamic_content_static_size
            | .Static, .Dynamic => apa.static_content_dynamic_size
            | .Dynamic, .Dynamic => apa.dynamic_content_dynamic_size
          ck.aggregate param_compute_kind
      | .Element _ => none
  | .Element .Static => some ck

/-- The loop of generate_application_compute_kind over the zipped argument
and parameter lists. -/
def generateLoop : ComputeKind → List ValueKind → List ParamApplication →
    Option ComputeKind
  | ck, [], [] => some ck
  | ck, a :: as, p :: ps =>
      (applyParamApplication ck a p).bind fun ck2 => generateLoop ck2 as ps
  | _, _, _ => none

/-- ApplicationGeneratorSet::generate_application_compute_kind from lib.rs:
assert equal lengths (an abort, modeled as none), then fold the per-parameter
aggregation over the inherent compute kind. -/
def ApplicationGeneratorSet.generate_application_compute_kind
    (g : ApplicationGeneratorSet) (args_value_kinds : List ValueKind) :
    Option ComputeKind :=
  if g.dynamic_param_applications.length = args_value_kinds.length then
    generateLoop g.inherent args_value_kinds g.dynamic_param_applications
  else
    none

/-- The RuntimeKind order of the spec: Static is below Dynamic. -/
def RuntimeKind.le : RuntimeKind → RuntimeKind → Bool
  | .Dynamic, .Static => false
  | _, _ => true

/-- The ValueKind order of the spec: component-wise on matching variants;
distinct variants are incomparable. -/
def ValueKind.le : ValueKind → ValueKind → Bool
  | .Array c s, .Array c2 s2 => c.le c2 && s.le s2
  | .Element k, .Element k2 => k.le k2
  | _, _ => false

/-- The ComputeKind order of the spec: Classical is bottom; Quantum values
compare by feature-set inclusion and value-kind order. -/
def ComputeKind.le : ComputeKind → ComputeKind → Bool
  | .Classical, _ => true
  | .Quantum _, .Classical => false
  | .Quantum p, .Quantum q =>
      decide (p.runtime_features ⊆ q.runtime_features) &&
        p.value_kind.le q.value_kind

/-- Pointwise ValueKind order on argument vectors. -/
def valueKindListLE : List ValueKind → List ValueKind → Bool
  | [], [] => true
  | a :: as, b :: bs => a.le b && valueKindListLE as bs
  | _, _ => false

/-- The monotonicity side condition on a parameter application: each of the
two partially dynamic array points is below the fully dynamic point. -/
def ParamApplication.deltasMonotone : ParamApplication → Bool
  | .Element _ => true
  | .Array apa =>
      apa.dynamic_content_static_size.le apa.dynamic_content_dynamic_size &&
        apa.static_content_dynamic_size.le apa.dynamic_content_dynamic_size

/-- RuntimeFeatureFlags::runtime_capabilities from lib.rs: the sequence of
contains checks, each OR-ing one capability bucket into the accumulator. -/
def RuntimeFeatureFlags.runtime_capabilities (f : RuntimeFeatureFlags) :
    RuntimeCapabilityFlags :=
  (if RuntimeFeature.UseOfDynamicBool ∈ f then
    {Capability.ForwardBranching} else ∅) ∪
  (if RuntimeFeature.UseOfDynamicInt ∈ f then
    {Capability.IntegerComputations} else ∅) ∪
  (if RuntimeFeature.UseOfDynamicPauli ∈ f then
    {Capability.IntegerComputations} else ∅) ∪
  (if RuntimeFeature.UseOfDynamicRange ∈ f then
    {Capability.IntegerComputations} else ∅) ∪
  (if RuntimeFeature.UseOfDynamicDouble ∈ f then
    {Capability.FloatingPointComputations} else ∅) ∪
  (if RuntimeFeature.UseOfDynamicQubit ∈ f then
    {Capability.HigherLevelConstructs} else ∅) ∪
  (if RuntimeFeature.UseOfDynamicBigInt ∈ f then
    {Capability.HigherLevelConstructs} else ∅) ∪
  (if RuntimeFeature.UseOfDynamicString ∈ f then
    {Capability.HigherLevelConstructs} else ∅) ∪
  (if RuntimeFeature.UseOfDynamicallySizedArray ∈ f then
    {Capability.HigherLevelConstructs} else ∅) ∪
  (if RuntimeFeature.UseOfDynamicUdt ∈ f then
    {Capability.HigherLevelConstructs} else ∅) ∪
  (if RuntimeFeature.UseOfDynamicArrowFunction ∈ f then
    {Capability.HigherLevelConstructs} else ∅) ∪
  (if RuntimeFeature.UseOfDynamicArrowOperation ∈ f then
    {Capability.HigherLevelConstructs} else ∅) ∪
  (if RuntimeFeature.CallToCyclicFunctionWithDynamicArg ∈ f then
    {Capability.HigherLevelConstructs} else ∅) ∪
  (if RuntimeFeature.CyclicOperationSpec ∈ f then
    {Capability.HigherLevelConstructs} else ∅) ∪
  (if RuntimeFeature.CallToCyclicOperation ∈ f then
    {Capability.HigherLevelConstructs} else ∅) ∪
  (if RuntimeFeature.CallToDynamicCallee ∈ f then
    {Capability.HigherLevelConstructs} else ∅) ∪
  (if RuntimeFeature.CallToUnresolvedCallee ∈ f then
    {Capability.HigherLevelConstructs} else ∅) ∪
  (if RuntimeFeature.ForwardBranchingOnDynamicValue ∈ f then
    {Capability.ForwardBranching} else ∅) ∪
  (if RuntimeFeature.DynamicQubitAllocation ∈ f then
    {Capability.HigherLevelConstructs} else ∅) ∪
  (if RuntimeFeature.DynamicResultAllocation ∈ f then
    {Capability.HigherLevelConstructs} else ∅) ∪
  (if RuntimeFeature.UseOfDynamicIndex ∈ f then
    {Capability.HigherLevelConstructs} else ∅) ∪
  (if RuntimeFeature.ReturnWithinDynamicScope ∈ f then
    {Capability.ForwardBranching} else ∅) ∪
  (if RuntimeFeature.LoopWithDynamicCondition ∈ f then
    {Capability.BackwardsBranching} else ∅) ∪
  (if RuntimeFeature.UseOfClosure ∈ f then
    {Capability.HigherLevelConstructs} else ∅)

/-- RuntimeFeatureFlags::contributing_features from lib.rs: keep each feature
bit of self whose own capability bucket intersects the given capabilities. -/
def RuntimeFeatureFlags.contributing_features (f : RuntimeFeatureFlags)
    (runtime_capabilities : RuntimeCapabilityFlags) : RuntimeFeatureFlags :=
  f.filter fun feature =>
    (RuntimeFeatureFlags.runtime_capabilities {feature} ∩
      runtime_capabilities).Nonempty

/-- Modelled from the spec: the FIR type Ty from qsc_fir::ty is not under
src/; the spec says the constructors that matter are the array constructor
and the unit type (Array goes to the array variant, Unit always to a static
element, everything else to an element), so Ty is modeled with an array
constructor, a unit type, and a scalar placeholder. -/
inductive Ty where
  | Array (item : Ty)
  | Unit
  | Prim (n : Nat)
deriving DecidableEq

/-- ValueKind::new_dynamic_from_type from lib.rs: unit is always static; a
dynamic array has dynamic content and size; anything else is a dynamic
element. -/
def ValueKind.new_dynamic_from_type (ty : Ty) : ValueKind :=
  if ty = Ty.Unit then
    .Element .Static
  else
    match ty with
    | .Array _ => .Array .Dynamic .Dynamic
    | _ => .Element .Dynamic

/-- ValueKind::new_static_from_type from lib.rs: a static array has static
content and size; anything else is a static element. -/
def ValueKind.new_static_from_type (ty : Ty) : ValueKind :=
  match ty with
  | .Array _ => .Array .Static .Static
  | _ => .Element .Static

/-- CallableComputeProperties from lib.rs. -/
structure CallableComputeProperties where
  body : ApplicationGeneratorSet
  adj : Option ApplicationGeneratorSet
  ctl : Option ApplicationGeneratorSet
  ctl_adj : Option ApplicationGeneratorSet

/-- ItemComputeProperties from lib.rs. -/
inductive ItemComputeProperties where
  | Callable (props : CallableComputeProperties)
  | NonCallable

/-- PackageComputeProperties from lib.rs: the four dense maps, each embedded
as a partial function from local ID (a natural number) to the stored value. -/
structure PackageComputeProperties where
  items : Nat → Option ItemComputeProperties
  blocks : Nat → Option ApplicationGeneratorSet
  stmts : Nat → Option ApplicationGeneratorSet
  exprs : Nat → Option ApplicationGeneratorSet

/-- PackageStoreComputeProperties from lib.rs: the package map, embedded as a
partial function from package ID to package compute properties. -/
structure PackageStoreComputeProperties where
  packages : Nat → Option PackageComputeProperties

/-- A store ID: a package ID paired with a package-local ID (used for blocks,
expressions, items and statements alike). -/
structure StoreId where
  package : Nat
  local_id : Nat

/-- PackageStoreComputeProperties::get from lib.rs aborts when the package is
absent; the abort is modeled as none at the outer Option layer. -/
def PackageStoreComputeProperties.getPackage
    (s : PackageStoreComputeProperties) (id : Nat) :
    Option PackageComputeProperties :=
  s.packages id

/-- find_block from the ComputePropertiesLookup impl in lib.rs: the outer
Option models the abort of the inner get when the package is absent; the
inner Option is the Rust return value. -/
def PackageStoreComputeProperties.find_block
    (s : PackageStoreComputeProperties) (id : StoreId) :
    Option (Option ApplicationGeneratorSet) :=
  (s.getPackage id.package).map fun pkg => pkg.blocks id.local_id

/-- find_expr from the ComputePropertiesLookup impl in lib.rs. -/
def PackageStoreComputeProperties.find_expr
    (s : PackageStoreComputeProperties) (id : StoreId) :
    Option (Option ApplicationGeneratorSet) :=
  (s.getPackage id.package).map fun pkg => pkg.exprs id.local_id

/-- find_item from the ComputePropertiesLookup impl in lib.rs. -/
def PackageStoreComputeProperties.find_item
    (s : PackageStoreComputeProperties) (id : StoreId) :
    Option (Option ItemComputeProperties) :=
  (s.getPackage id.package).map fun pkg => pkg.items id.local_id

/-- find_stmt from the ComputePropertiesLookup impl in lib.rs. -/
def PackageStoreComputeProperties.find_stmt
    (s : PackageStoreComputeProperties) (id : StoreId) :
    Option (Option ApplicationGeneratorSet) :=
  (s.getPackage id.package).map fun pkg => pkg.stmts id.local_id

/-- True when the value kind uses the array constructor. -/
def ValueKind.isArrayVariant : ValueKind → Bool
  | .Array _ _ => true
  | .Element _ => false

/-- A compute kind is variant-uniform for b when it is Classical or its
quantum value kind has array-ness b. -/
def ComputeKind.variantOk (b : Bool) : ComputeKind → Bool
  | .Classical => true
  | .Quantum q => q.value_kind.isArrayVariant == b

/-- A parameter application is variant-uniform for b when all its delta
compute kinds are. -/
def ParamApplication.variantOk (b : Bool) : ParamApplication → Bool
  | .Element ck => ck.variantOk b
  | .Array apa =>
      apa.static_content_dynamic_size.variantOk b &&
        apa.dynamic_content_static_size.variantOk b &&
          apa.dynamic_content_dynamic_size.variantOk b

/-- The capability bucket of each feature bit as stated by the table in the
spec: ForwardBranching for bits 0, 17 and 21; IntegerComputations for bits 1,
2 and 3; FloatingPointComputations for bit 4; BackwardsBranching for bit 22;
HigherLevelConstructs for every other bit. -/
def specCapability : RuntimeFeature → Capability
  | .UseOfDynamicBool => .ForwardBranching
  | .UseOfDynamicInt => .IntegerComputations
  | .UseOfDynamicPauli => .IntegerComputations
  | .UseOfDynamicRange => .IntegerComputations
  | .UseOfDynamicDouble => .FloatingPointComputations
  | .ForwardBranchingOnDynamicValue => .ForwardBranching
  | .ReturnWithinDynamicScope => .ForwardBranching
  | .LoopWithDynamicCondition => .BackwardsBranching
  | _ => .HigherLevelConstructs

/-- C5: ValueKind.aggregate is the element-wise join under the RuntimeKind
lattice (Static is the identity and Dynamic is absorbing); in particular
Array(Static,Static) joined with itself is Array(Static,Static); operands of
different variants abort. -/
theorem valueKind_aggregate_elementwise_join :
    (∀ a b c d : RuntimeKind,
      ValueKind.aggregate (.Array a b) (.Array c d) =
        some (.Array (a.aggregate c) (b.aggregate d))) ∧
    (∀ j k : RuntimeKind,
      ValueKind.aggregate (.Element j) (.Element k) =
        some (.Element (j.aggregate k))) ∧
    (∀ x : RuntimeKind,
      RuntimeKind.aggregate .Static x = x ∧
      RuntimeKind.aggregate x .Static = x ∧
      RuntimeKind.aggregate .Dynamic x = .Dynamic ∧
      RuntimeKind.aggregate x .Dynamic = .Dynamic) ∧
    ValueKind.aggregate (.Array .Static .Static) (.Array .Static .Static) =
      some (.Array .Static .Static) ∧
    (∀ k a b : RuntimeKind,
      ValueKind.aggregate (.Element k) (.Array a b) = none ∧
      ValueKind.aggregate (.Array a b) (.Element k) = none) := by
  refine ⟨fun a b c d => rfl, fun j k => rfl, fun x => ?_, rfl,
    fun k a b => ⟨rfl, rfl⟩⟩
  cases x <;> exact ⟨rfl, rfl, rfl, rfl⟩

/-- C6: project_onto_variant copies an element source onto both slots of an
array target, copies an array source onto an array target, collapses an array
source onto an element target to Dynamic exactly when a component is Dynamic,
and copies an element source onto an element target. -/
theorem project_onto_variant_cases :
    (∀ k c s : RuntimeKind,
      (ValueKind.Element k).project_onto_variant (.Array c s) = .Array k k) ∧
    (∀ c s c2 s2 : RuntimeKind,
      (ValueKind.Array c s).project_onto_variant (.Array c2 s2) =
        .Array c s) ∧
    (∀ c s k : RuntimeKind,
      (ValueKind.Array c s).project_onto_variant (.Element k) =
        .Element (if c = RuntimeKind.Dynamic ∨ s = RuntimeKind.Dynamic then
          .Dynamic else .Static)) ∧
    (∀ k j : RuntimeKind,
      (ValueKind.Element k).project_onto_variant (.Element j) =
        .Element k) := by
  refine ⟨fun k c s => rfl, fun c s c2 s2 => rfl, fun c s k => ?_,
    fun k j => ?_⟩
  · cases c <;> cases s <;> cases k <;> decide
  · cases k <;> cases j <;> decide

/-- C8: projecting a value kind onto a target of the same variant returns the
source unchanged, and projecting the result again onto the same target still
returns the source. -/
theorem project_onto_variant_idempotent (s t : ValueKind)
    (h : s.sameVariant t = true) :
    s.project_onto_variant t = s ∧
    (s.project_onto_variant t).project_onto_variant t = s := by
  cases s with
  | Array c sz =>
      cases t with
      | Array c2 s2 => exact ⟨rfl, rfl⟩
      | Element k => simp [ValueKind.sameVariant] at h
  | Element k =>
      cases t with
      | Array c2 s2 => simp [ValueKind.sameVariant] at h
      | Element j => cases k <;> cases j <;> exact ⟨by decide, by decide⟩

/-- Witness for C8 at the concrete source Element(Dynamic) and target
Element(Static). -/
theorem project_onto_variant_idempotent_witness :
    (ValueKind.Element .Dynamic).project_onto_variant (.Element .Static) =
      .Element .Dynamic ∧
    ((ValueKind.Element .Dynamic).project_onto_variant
      (.Element .Static)).project_onto_variant (.Element .Static) =
      .Element .Dynamic :=
  project_onto_variant_idempotent (.Element .Dynamic) (.Element .Static)
    (by decide)

/-- C4: ComputeKind.aggregate returns self when the other operand is
Classical, returns the quantum properties of the other operand when self is
Classical, and on two Quantum operands with value kinds of the same variant
returns Quantum with the union of the feature sets and the join of the value
kinds. -/
theorem computeKind_aggregate_cases :
    (∀ x : ComputeKind, x.aggregate .Classical = some x) ∧
    (∀ q : QuantumProperties,
      ComputeKind.aggregate .Classical (.Quantum q) = some (.Quantum q)) ∧
    (∀ p q : QuantumProperties,
      p.value_kind.sameVariant q.value_kind = true →
      ∃ v, p.value_kind.aggregate q.value_kind = some v ∧
        ComputeKind.aggregate (.Quantum p) (.Quantum q) =
          some (.Quantum ⟨p.runtime_features ∪ q.runtime_features, v⟩)) := by
  refine ⟨fun x => by cases x <;> rfl, fun q => rfl, fun p q h => ?_⟩
  obtain ⟨pf, pv⟩ := p
  obtain ⟨qf, qv⟩ := q
  cases pv <;> cases qv <;> simp_all [ValueKind.sameVariant,
    ValueKind.aggregate, ComputeKind.aggregate]

/-- Witness for C4 at two concrete Quantum operands with element value
kinds. -/
theorem computeKind_aggregate_cases_witness :
    ComputeKind.aggregate
      (.Quantum ⟨{RuntimeFeature.UseOfDynamicBool}, .Element .Static⟩)
      (.Quantum ⟨∅, .Element .Dynamic⟩) =
    some (.Quantum ⟨{RuntimeFeature.UseOfDynamicBool} ∪ ∅,
      .Element .Dynamic⟩) := by
  obtain ⟨v, hv, he⟩ := computeKind_aggregate_cases.2.2
    ⟨{RuntimeFeature.UseOfDynamicBool}, .Element .Static⟩
    ⟨∅, .Element .Dynamic⟩ (by decide)
  have hv2 : v = ValueKind.Element .Dynamic := by
    simpa [ValueKind.aggregate, RuntimeKind.aggregate] using hv.symm
  rw [hv2] at he
  exact he

/-- C9: new_static_from_type chooses the all-static array kind for array
types and the static element kind otherwise; new_dynamic_from_type chooses
the static element kind for the unit type, the all-dynamic array kind for
array types, and the dynamic element kind for every other type. -/
theorem valueKind_new_from_type_cases :
    (∀ t : Ty, ValueKind.new_static_from_type (.Array t) =
      .Array .Static .Static) ∧
    (∀ ty : Ty, (∀ t, ty ≠ Ty.Array t) →
      ValueKind.new_static_from_type ty = .Element .Static) ∧
    (ValueKind.new_dynamic_from_type .Unit = .Element .Static) ∧
    (∀ t : Ty, ValueKind.new_dynamic_from_type (.Array t) =
      .Array .Dynamic .Dynamic) ∧
    (∀ ty : Ty, ty ≠ Ty.Unit → (∀ t, ty ≠ Ty.Array t) →
      ValueKind.new_dynamic_from_type ty = .Element .Dynamic) := by
  refine ⟨fun t => rfl, fun ty h => ?_, rfl, fun t => ?_, fun ty h1 h2 => ?_⟩
  · cases ty with
    | Array t => exact absurd rfl (h t)
    | Unit => rfl
    | Prim n => rfl
  · simp [ValueKind.new_dynamic_from_type]
  · cases ty with
    | Array t => exact absurd rfl (h2 t)
    | Unit => exact absurd rfl h1
    | Prim n => rfl

/-- Witness for C9 at the concrete non-array, non-unit type Prim 0. -/
theorem valueKind_new_from_type_cases_witness :
    ValueKind.new_dynamic_from_type (.Prim 0) = .Element .Dynamic :=
  valueKind_new_from_type_cases.2.2.2.2 (.Prim 0)
    (fun h => Ty.noConfusion h) (fun _ h => Ty.noConfusion h)

/-- C10: when the package ID has no entry, every find method aborts inside
the inner get (outer none); when the package is present, each find method
returns exactly the local lookup, so a None result on the public interface
only ever reflects a locally absent ID. -/
theorem find_methods_option_semantics :
    (∀ (s : PackageStoreComputeProperties) (id : StoreId),
      s.packages id.package = none →
      s.find_block id = none ∧ s.find_expr id = none ∧
      s.find_item id = none ∧ s.find_stmt id = none) ∧
    (∀ (s : PackageStoreComputeProperties) (id : StoreId)
      (pkg : PackageComputeProperties),
      s.packages id.package = some pkg →
      s.find_block id = some (pkg.blocks id.local_id) ∧
      s.find_expr id = some (pkg.exprs id.local_id) ∧
      s.find_item id = some (pkg.items id.local_id) ∧
      s.find_stmt id = some (pkg.stmts id.local_id)) := by
  constructor
  · intro s id h
    refine ⟨?_, ?_, ?_, ?_⟩ <;>
      simp [PackageStoreComputeProperties.find_block,
        PackageStoreComputeProperties.find_expr,
        PackageStoreComputeProperties.find_item,
        PackageStoreComputeProperties.find_stmt,
        PackageStoreComputeProperties.getPackage, h]
  · intro s id pkg h
    refine ⟨?_, ?_, ?_, ?_⟩ <;>
      simp [PackageStoreComputeProperties.find_block,
        PackageStoreComputeProperties.find_expr,
        PackageStoreComputeProperties.find_item,
        PackageStoreComputeProperties.find_stmt,
        PackageStoreComputeProperties.getPackage, h]

/-- Witness for C10 at a concrete empty store: every find method aborts when
the package is missing. -/
theorem find_methods_option_semantics_witness :
    PackageStoreComputeProperties.find_block ⟨fun _ => none⟩ ⟨0, 0⟩ = none ∧
    PackageStoreComputeProperties.find_expr ⟨fun _ => none⟩ ⟨0, 0⟩ = none ∧
    PackageStoreComputeProperties.find_item ⟨fun _ => none⟩ ⟨0, 0⟩ = none ∧
    PackageStoreComputeProperties.find_stmt ⟨fun _ => none⟩ ⟨0, 0⟩ = none :=
  find_methods_option_semantics.1 ⟨fun _ => none⟩ ⟨0, 0⟩ rfl

/-- Membership in an if-then-else between a singleton and the empty set. -/
theorem mem_ite_singleton {α : Type} [DecidableEq α] (P : Prop) [Decidable P]
    (c x : α) :
    (c ∈ (if P then ({x} : Finset α) else ∅)) ↔ P ∧ c = x := by
  split_ifs with h <;> simp [h]

/-- Each feature bit of a feature set contributes its bucket to the computed
runtime capabilities. -/
theorem specCapability_mem_runtime_capabilities {f : RuntimeFeature}
    {F : RuntimeFeatureFlags} (hf : f ∈ F) :
    specCapability f ∈ F.runtime_capabilities := by
  cases f <;>
    simp [RuntimeFeatureFlags.runtime_capabilities, specCapability,
      Finset.mem_union, mem_ite_singleton, hf]

/-- C2: filtering a feature set by the capabilities it itself maps to is the
identity, because every feature bit maps to a non-empty capability bucket
that is contained in the mapped capabilities. -/
theorem contributing_features_round_trip (f : RuntimeFeatureFlags) :
    f.contributing_features f.runtime_capabilities = f := by
  rw [RuntimeFeatureFlags.contributing_features, Finset.filter_eq_self]
  intro x hx
  exact ⟨specCapability x, Finset.mem_inter.mpr
    ⟨specCapability_mem_runtime_capabilities (Finset.mem_singleton_self x),
      specCapability_mem_runtime_capabilities hx⟩⟩

set_option maxHeartbeats 1000000 in
/-- C3: on every single-feature set, runtime_capabilities returns exactly the
bucket of the spec table, and on any union of feature sets it returns the
union of the mapped capabilities. -/
theorem runtime_capabilities_table_and_union :
    (∀ f : RuntimeFeature,
      RuntimeFeatureFlags.runtime_capabilities {f} = {specCapability f}) ∧
    (∀ A B : RuntimeFeatureFlags,
      (A ∪ B).runtime_capabilities =
        A.runtime_capabilities ∪ B.runtime_capabilities) := by
  constructor
  · intro f
    cases f <;> decide
  · intro A B
    ext c
    cases c <;>
      simp [RuntimeFeatureFlags.runtime_capabilities, Finset.mem_union,
        mem_ite_singleton] <;> tauto

/-- The RuntimeKind order is reflexive. -/
theorem rk_le_refl (a : RuntimeKind) : a.le a = true := by
  cases a <;> rfl

/-- The RuntimeKind order is transitive. -/
theorem rk_le_trans {a b c : RuntimeKind} (h1 : a.le b = true)
    (h2 : b.le c = true) : a.le c = true := by
  cases a <;> cases b <;> cases c <;> simp_all [RuntimeKind.le]

/-- The left operand is below a RuntimeKind aggregation. -/
theorem rk_agg_le_left (a b : RuntimeKind) :
    a.le (a.aggregate b) = true := by
  cases a <;> cases b <;> rfl

/-- The right operand is below a RuntimeKind aggregation. -/
theorem rk_agg_le_right (a b : RuntimeKind) :
    b.le (a.aggregate b) = true := by
  cases a <;> cases b <;> rfl

/-- RuntimeKind aggregation is monotone in both operands. -/
theorem rk_agg_mono {a a2 b b2 : RuntimeKind} (ha : a.le a2 = true)
    (hb : b.le b2 = true) :
    (a.aggregate b).le (a2.aggregate b2) = true := by
  cases a <;> cases a2 <;> cases b <;> cases b2 <;>
    simp_all [RuntimeKind.le, RuntimeKind.aggregate]

/-- The ValueKind order is reflexive. -/
theorem vk_le_refl (v : ValueKind) : v.le v = true := by
  cases v <;> simp [ValueKind.le, rk_le_refl]

/-- The ValueKind order is transitive. -/
theorem vk_le_trans {u v w : ValueKind} (h1 : u.le v = true)
    (h2 : v.le w = true) : u.le w = true := by
  cases u <;> cases v <;> cases w <;>
    simp_all [ValueKind.le, Bool.and_eq_true]
  case Array.Array.Array =>
    exact ⟨rk_le_trans h1.1 h2.1, rk_le_trans h1.2 h2.2⟩
  case Element.Element.Element =>
    exact rk_le_trans h1 h2

/-- The left operand is below a defined ValueKind aggregation. -/
theorem vk_agg_le_left {u v w : ValueKind} (h : u.aggregate v = some w) :
    u.le w = true := by
  cases u <;> cases v <;> simp_all [ValueKind.aggregate] <;> subst h <;>
    simp [ValueKind.le, rk_agg_le_left]

/-- The right operand is below a defined ValueKind aggregation. -/
theorem vk_agg_le_right {u v w : ValueKind} (h : u.aggregate v = some w) :
    v.le w = true := by
  cases u <;> cases v <;> simp_all [ValueKind.aggregate] <;> subst h <;>
    simp [ValueKind.le, rk_agg_le_right]

/-- ValueKind aggregation is monotone in both operands where defined. -/
theorem vk_agg_mono {u u2 v v2 w w2 : ValueKind} (hu : u.le u2 = true)
    (hv : v.le v2 = true) (h : u.aggregate v = some w)
    (h2 : u2.aggregate v2 = some w2) : w.le w2 = true := by
  cases u <;> cases u2 <;> cases v <;> cases v2 <;>
    simp_all [ValueKind.aggregate, ValueKind.le, Bool.and_eq_true] <;>
    subst h <;> subst h2 <;>
    simp [ValueKind.le, Bool.and_eq_true]
  case Array.Array.Array.Array =>
    exact ⟨rk_agg_mono hu.1 hv.1, rk_agg_mono hu.2 hv.2⟩
  case Element.Element.Element.Element =>
    exact rk_agg_mono hu hv

/-- Classical is the bottom of the ComputeKind order. -/
theorem ck_le_classical_bot (y : ComputeKind) :
    ComputeKind.le .Classical y = true := rfl

/-- The ComputeKind order is reflexive. -/
theorem ck_le_refl (x : ComputeKind) : x.le x = true := by
  cases x with
  | Classical => rfl
  | Quantum p =>
      simp [ComputeKind.le, Bool.and_eq_true, decide_eq_true_iff,
        Finset.Subset.refl, vk_le_refl]

/-- The ComputeKind order is transitive. -/
theorem ck_le_trans {x y z : ComputeKind} (h1 : x.le y = true)
    (h2 : y.le z = true) : x.le z = true := by
  cases x <;> cases y <;> cases z <;>
    simp_all [ComputeKind.le, Bool.and_eq_true, decide_eq_true_iff]
  case Quantum.Quantum.Quantum =>
    exact ⟨h1.1.trans h2.1, vk_le_trans h1.2 h2.2⟩

/-- The left operand is below a defined ComputeKind aggregation. -/
theorem ck_agg_le_left {x d r : ComputeKind} (h : x.aggregate d = some r) :
    x.le r = true := by
  cases d with
  | Classical =>
      simp [ComputeKind.aggregate] at h
      subst h
      exact ck_le_refl x
  | Quantum q =>
      cases x with
      | Classical => exact ck_le_classical_bot r
      | Quantum p =>
          simp [ComputeKind.aggregate, Option.map_eq_some'] at h
          obtain ⟨vk, hvk, hr⟩ := h
          subst hr
          simp [ComputeKind.le, Bool.and_eq_true, decide_eq_true_iff,
            Finset.subset_union_left, vk_agg_le_left hvk]

/-- ComputeKind aggregation is monotone in both operands where defined. -/
theorem ck_agg_mono {x x2 d d2 r r2 : ComputeKind} (hx : x.le x2 = true)
    (hd : d.le d2 = true) (h : x.aggregate d = some r)
    (h2 : x2.aggregate d2 = some r2) : r.le r2 = true := by
  cases d with
  | Classical =>
      simp [ComputeKind.aggregate] at h
      subst h
      cases d2 with
      | Classical =>
          simp [ComputeKind.aggregate] at h2
          subst h2
          exact hx
      | Quantum q2 => exact ck_le_trans hx (ck_agg_le_left h2)
  | Quantum q =>
      cases d2 with
      | Classical => simp [ComputeKind.le] at hd
      | Quantum q2 =>
          simp [ComputeKind.le, Bool.and_eq_true, decide_eq_true_iff] at hd
          cases x with
          | Classical =>
              simp [ComputeKind.aggregate] at h
              subst h
              cases x2 with
              | Classical =>
                  simp [ComputeKind.aggregate] at h2
                  subst h2
                  simp [ComputeKind.le, Bool.and_eq_true,
                    decide_eq_true_iff]
                  exact hd
              | Quantum p2 =>
                  simp [ComputeKind.aggregate, Option.map_eq_some'] at h2
                  obtain ⟨vk2, hvk2, hr2⟩ := h2
                  subst hr2
                  simp [ComputeKind.le, Bool.and_eq_true,
                    decide_eq_true_iff]
                  exact ⟨hd.1.trans Finset.subset_union_right,
                    vk_le_trans hd.2 (vk_agg_le_right hvk2)⟩
          | Quantum p =>
              cases x2 with
              | Classical => simp [ComputeKind.le] at hx
              | Quantum p2 =>
                  simp [ComputeKind.le, Bool.and_eq_true,
                    decide_eq_true_iff] at hx
                  simp [ComputeKind.aggregate, Option.map_eq_some']
                    at h h2
                  obtain ⟨vk, hvk, hr⟩ := h
                  obtain ⟨vk2, hvk2, hr2⟩ := h2
                  subst hr
                  subst hr2
                  simp [ComputeKind.le, Bool.and_eq_true,
                    decide_eq_true_iff]
                  exact ⟨Finset.union_subset_union hx.1 hd.1,
                    vk_agg_mono hx.2 hd.2 hvk hvk2⟩

/-- Evaluation of one loop iteration on an element-typed parameter: skip when
the projected argument is static, aggregate the delta when it is dynamic. -/
theorem applyParam_element (x : ComputeKind) (a : ValueKind)
    (d : ComputeKind) :
    applyParamApplication x a (.Element d) =
      if a.is_dynamic then x.aggregate d else some x := by
  cases a with
  | Array c s => cases c <;> cases s <;> rfl
  | Element k => cases k <;> rfl

/-- Dynamic-ness of a value kind is monotone in the ValueKind order. -/
theorem is_dynamic_mono {u v : ValueKind} (h : u.le v = true)
    (hd : u.is_dynamic = true) : v.is_dynamic = true := by
  cases u with
  | Array c s =>
      cases v with
      | Array c2 s2 =>
          cases c <;> cases s <;> cases c2 <;> cases s2 <;>
            simp_all [ValueKind.le, RuntimeKind.le, ValueKind.is_dynamic]
      | Element k => simp [ValueKind.le] at h
  | Element k =>
      cases v with
      | Array c2 s2 => simp [ValueKind.le] at h
      | Element k2 =>
          cases k <;> cases k2 <;>
            simp_all [ValueKind.le, RuntimeKind.le, ValueKind.is_dynamic]

/-- One loop iteration is monotone in the argument value kind and the
accumulated compute kind, for a parameter application whose array deltas are
monotone. -/
theorem applyParam_mono {pa : ParamApplication} {a a2 : ValueKind}
    {x x2 r r2 : ComputeKind} (hpa : pa.deltasMonotone = true)
    (ha : a.le a2 = true) (hx : x.le x2 = true)
    (h : applyParamApplication x a pa = some r)
    (h2 : applyParamApplication x2 a2 pa = some r2) : r.le r2 = true := by
  cases pa with
  | Element d =>
      rw [applyParam_element] at h h2
      by_cases hda : a.is_dynamic = true
      · rw [if_pos hda] at h
        rw [if_pos (is_dynamic_mono ha hda)] at h2
        exact ck_agg_mono hx (ck_le_refl d) h h2
      · rw [if_neg hda] at h
        cases h
        by_cases hda2 : a2.is_dynamic = true
        · rw [if_pos hda2] at h2
          exact ck_le_trans hx (ck_agg_le_left h2)
        · rw [if_neg hda2] at h2
          cases h2
          exact hx
  | Array apa =>
      obtain ⟨hm1, hm2⟩ :
          apa.dynamic_content_static_size.le
            apa.dynamic_content_dynamic_size = true ∧
          apa.static_content_dynamic_size.le
            apa.dynamic_content_dynamic_size = true := by
        simpa [ParamApplication.deltasMonotone, Bool.and_eq_true] using hpa
      cases a with
      | Array c s =>
          cases a2 with
          | Array c2 s2 =>
              obtain ⟨hc, hs⟩ : c.le c2 = true ∧ s.le s2 = true := by
                simpa [ValueKind.le, Bool.and_eq_true] using ha
              cases c <;> cases s <;> cases c2 <;> cases s2 <;>
                simp_all [RuntimeKind.le, applyParamApplication,
                  ValueKind.project_onto_variant, ValueKind.is_dynamic] <;>
                first
                  | exact ck_agg_mono hx (ck_le_refl _) h h2
                  | exact ck_agg_mono hx (ck_le_classical_bot _) h h2
                  | exact ck_agg_mono hx hm1 h h2
                  | exact ck_agg_mono hx hm2 h h2
          | Element k2 => simp [ValueKind.le] at ha
      | Element k =>
          cases a2 with
          | Array c2 s2 => simp [ValueKind.le] at ha
          | Element k2 =>
              cases k <;> cases k2 <;>
                simp_all [RuntimeKind.le, ValueKind.le, applyParamApplication,
                  ValueKind.project_onto_variant, ValueKind.is_dynamic] <;>
                first
                  | exact ck_agg_mono hx (ck_le_refl _) h h2
                  | exact ck_agg_mono hx (ck_le_classical_bot _) h h2

/-- The specialization loop is monotone in the argument vector and the
accumulated compute kind, for parameter applications with monotone array
deltas. -/
theorem generateLoop_mono {ps : List ParamApplication} :
    ∀ {as as2 : List ValueKind} {x x2 r r2 : ComputeKind},
    (∀ pa ∈ ps, pa.deltasMonotone = true) →
    valueKindListLE as as2 = true → x.le x2 = true →
    generateLoop x as ps = some r → generateLoop x2 as2 ps = some r2 →
    r.le r2 = true := by
  induction ps with
  | nil =>
      intro as as2 x x2 r r2 hm hl hx h h2
      cases as with
      | nil =>
          cases as2 with
          | nil =>
              simp [generateLoop] at h h2
              subst h
              subst h2
              exact hx
          | cons b bs => simp [valueKindListLE] at hl
      | cons a astl => simp [generateLoop] at h
  | cons p pt ih =>
      intro as as2 x x2 r r2 hm hl hx h h2
      cases as with
      | nil => simp [generateLoop] at h
      | cons a astl =>
          cases as2 with
          | nil => simp [valueKindListLE] at hl
          | cons a2 as2tl =>
              obtain ⟨hla, hlt⟩ : a.le a2 = true ∧
                  valueKindListLE astl as2tl = true := by
                simpa [valueKindListLE, Bool.and_eq_true] using hl
              obtain ⟨m, hma, hrest⟩ : ∃ m,
                  applyParamApplication x a p = some m ∧
                  generateLoop m astl pt = some r := by
                cases happ : applyParamApplication x a p with
                | none => simp [generateLoop, happ] at h
                | some m =>
                    exact ⟨m, rfl, by simpa [generateLoop, happ] using h⟩
              obtain ⟨m2, hma2, hrest2⟩ : ∃ m2,
                  applyParamApplication x2 a2 p = some m2 ∧
                  generateLoop m2 as2tl pt = some r2 := by
                cases happ : applyParamApplication x2 a2 p with
                | none => simp [generateLoop, happ] at h2
                | some m2 =>
                    exact ⟨m2, rfl, by simpa [generateLoop, happ] using h2⟩
              have hmm : m.le m2 = true :=
                applyParam_mono (hm p (by simp)) hla hx hma hma2
              exact ih (fun pa hpa => hm pa (by simp [hpa])) hlt hmm
                hrest hrest2

/-- C1 counterexample: for the generator set with inherent Classical and one
array parameter whose dynamic-content-static-size delta carries a feature but
whose dynamic-content-dynamic-size delta is Classical, the argument vectors
Array(Dynamic,Static) and Array(Dynamic,Dynamic) are pointwise ordered, yet
the first application is strictly above the second, so the claim as stated
(with no hypothesis on the per-parameter deltas) is false. -/
theorem generate_application_not_monotone :
    valueKindListLE [ValueKind.Array .Dynamic .Static]
      [ValueKind.Array .Dynamic .Dynamic] = true ∧
    ApplicationGeneratorSet.generate_application_compute_kind
      ⟨.Classical, [.Array ⟨.Classical,
        .Quantum ⟨{RuntimeFeature.UseOfDynamicBool}, .Element .Static⟩,
        .Classical⟩]⟩
      [ValueKind.Array .Dynamic .Static] =
      some (.Quantum ⟨{RuntimeFeature.UseOfDynamicBool},
        .Element .Static⟩) ∧
    ApplicationGeneratorSet.generate_application_compute_kind
      ⟨.Classical, [.Array ⟨.Classical,
        .Quantum ⟨{RuntimeFeature.UseOfDynamicBool}, .Element .Static⟩,
        .Classical⟩]⟩
      [ValueKind.Array .Dynamic .Dynamic] = some .Classical ∧
    ComputeKind.le
      (.Quantum ⟨{RuntimeFeature.UseOfDynamicBool}, .Element .Static⟩)
      .Classical = false := by
  refine ⟨rfl, ?_, ?_, rfl⟩ <;> rfl

/-- C1 amended: for every generator set whose array parameter applications
have monotone deltas (each partially dynamic point below the fully dynamic
point), and every pair of pointwise ordered argument vectors on which the
specialization is defined, the generated compute kinds are ordered in the
ComputeKind lattice. -/
theorem generate_application_compute_kind_monotone
    (g : ApplicationGeneratorSet) (as as2 : List ValueKind)
    (r r2 : ComputeKind)
    (hm : ∀ pa ∈ g.dynamic_param_applications, pa.deltasMonotone = true)
    (hl : valueKindListLE as as2 = true)
    (h : g.generate_application_compute_kind as = some r)
    (h2 : g.generate_application_compute_kind as2 = some r2) :
    r.le r2 = true := by
  by_cases hc1 : g.dynamic_param_applications.length = as.length
  · by_cases hc2 : g.dynamic_param_applications.length = as2.length
    · rw [ApplicationGeneratorSet.generate_application_compute_kind,
        if_pos hc1] at h
      rw [ApplicationGeneratorSet.generate_application_compute_kind,
        if_pos hc2] at h2
      exact generateLoop_mono hm hl (ck_le_refl _) h h2
    · rw [ApplicationGeneratorSet.generate_application_compute_kind,
        if_neg hc2] at h2
      cases h2
  · rw [ApplicationGeneratorSet.generate_application_compute_kind,
      if_neg hc1] at h
    cases h

/-- Witness for the amended C1 at a concrete generator set with monotone
array deltas and the ordered argument vectors Array(Dynamic,Static) and
Array(Dynamic,Dynamic). -/
theorem generate_application_compute_kind_monotone_witness :
    ComputeKind.le
      (.Quantum ⟨{RuntimeFeature.UseOfDynamicBool}, .Element .Static⟩)
      (.Quantum ⟨{RuntimeFeature.UseOfDynamicBool}, .Element .Static⟩) =
      true :=
  generate_application_compute_kind_monotone
    ⟨.Classical, [.Array ⟨.Classical,
      .Quantum ⟨{RuntimeFeature.UseOfDynamicBool}, .Element .Static⟩,
      .Quantum ⟨{RuntimeFeature.UseOfDynamicBool}, .Element .Static⟩⟩]⟩
    [ValueKind.Array .Dynamic .Static] [ValueKind.Array .Dynamic .Dynamic]
    (.Quantum ⟨{RuntimeFeature.UseOfDynamicBool}, .Element .Static⟩)
    (.Quantum ⟨{RuntimeFeature.UseOfDynamicBool}, .Element .Static⟩)
    (by decide) (by decide) (by decide) (by decide)

/-- Aggregation of two variant-uniform compute kinds is defined and
variant-uniform. -/
theorem ck_agg_total {b : Bool} {x d : ComputeKind}
    (hx : x.variantOk b = true) (hd : d.variantOk b = true) :
    ∃ r, x.aggregate d = some r ∧ r.variantOk b = true := by
  cases d with
  | Classical => exact ⟨x, by simp [ComputeKind.aggregate], hx⟩
  | Quantum q =>
      cases x with
      | Classical => exact ⟨.Quantum q, by simp [ComputeKind.aggregate], hd⟩
      | Quantum p =>
          obtain ⟨pf, pv⟩ := p
          obtain ⟨qf, qv⟩ := q
          simp only [ComputeKind.variantOk] at hx hd
          cases pv with
          | Array c1 s1 =>
              cases qv with
              | Array c2 s2 =>
                  refine ⟨.Quantum ⟨pf ∪ qf,
                    .Array (c1.aggregate c2) (s1.aggregate s2)⟩, ?_, ?_⟩
                  · simp [ComputeKind.aggregate, ValueKind.aggregate]
                  · simpa only [ComputeKind.variantOk,
                      ValueKind.isArrayVariant] using hx
              | Element k2 => cases b <;> simp_all [ValueKind.isArrayVariant]
          | Element k1 =>
              cases qv with
              | Array c2 s2 => cases b <;> simp_all [ValueKind.isArrayVariant]
              | Element k2 =>
                  refine ⟨.Quantum ⟨pf ∪ qf, .Element (k1.aggregate k2)⟩,
                    ?_, ?_⟩
                  · simp [ComputeKind.aggregate, ValueKind.aggregate]
                  · simpa only [ComputeKind.variantOk,
                      ValueKind.isArrayVariant] using hx

/-- One loop iteration on a variant-uniform accumulator and parameter
application is defined and preserves variant uniformity, for any argument
value kind. -/
theorem applyParam_total {b : Bool} {x : ComputeKind} {a : ValueKind}
    {pa : ParamApplication} (hx : x.variantOk b = true)
    (hpa : pa.variantOk b = true) :
    ∃ r, applyParamApplication x a pa = some r ∧ r.variantOk b = true := by
  cases pa with
  | Element d =>
      rw [applyParam_element]
      by_cases hda : a.is_dynamic = true
      · rw [if_pos hda]
        exact ck_agg_total hx (by simpa [ParamApplication.variantOk]
          using hpa)
      · rw [if_neg hda]
        exact ⟨x, rfl, hx⟩
  | Array apa =>
      obtain ⟨h1, h2, h3⟩ :
          apa.static_content_dynamic_size.variantOk b = true ∧
          apa.dynamic_content_static_size.variantOk b = true ∧
          apa.dynamic_content_dynamic_size.variantOk b = true := by
        simpa [ParamApplication.variantOk, Bool.and_eq_true, and_assoc]
          using hpa
      cases a with
      | Array c s =>
          cases c <;> cases s <;>
            simp only [applyParamApplication,
              ValueKind.project_onto_variant] <;>
            first
              | exact ck_agg_total hx h1
              | exact ck_agg_total hx h2
              | exact ck_agg_total hx h3
              | exact ck_agg_total hx rfl
      | Element k =>
          cases k <;>
            simp only [applyParamApplication,
              ValueKind.project_onto_variant, ValueKind.is_dynamic] <;>
            first
              | exact ck_agg_total hx h3
              | exact ck_agg_total hx rfl

/-- The specialization loop on equal-length lists with a variant-uniform
accumulator and parameter applications is defined. -/
theorem generateLoop_total {b : Bool} {ps : List ParamApplication} :
    ∀ {as : List ValueKind} {x : ComputeKind},
    as.length = ps.length → x.variantOk b = true →
    (∀ pa ∈ ps, pa.variantOk b = true) →
    ∃ r, generateLoop x as ps = some r ∧ r.variantOk b = true := by
  induction ps with
  | nil =>
      intro as x hlen hx hps
      cases as with
      | nil => exact ⟨x, rfl, hx⟩
      | cons a astl => simp at hlen
  | cons p pt ih =>
      intro as x hlen hx hps
      cases as with
      | nil => simp at hlen
      | cons a astl =>
          obtain ⟨m, hm, hmv⟩ :=
            @applyParam_total b x a p hx (hps p (by simp))
          obtain ⟨r, hr, hrv⟩ := @ih astl m (by simpa using hlen) hmv
            (fun pa hpa => hps pa (by simp [hpa]))
          exact ⟨r, by simp [generateLoop, hm, hr], hrv⟩

/-- C7 counterexample: a generator set whose inherent compute kind has an
element value kind but whose parameter delta has an array value kind aborts
on a dynamic argument even though the argument arity matches, so the claim
that the function aborts only on arity mismatch is false. -/
theorem generate_application_panics_with_equal_arity :
    (ApplicationGeneratorSet.mk (.Quantum ⟨∅, .Element .Static⟩)
      [.Element (.Quantum ⟨∅, .Array .Static .Static⟩)]
      ).dynamic_param_applications.length =
      [ValueKind.Element .Dynamic].length ∧
    ApplicationGeneratorSet.generate_application_compute_kind
      ⟨.Quantum ⟨∅, .Element .Static⟩,
        [.Element (.Quantum ⟨∅, .Array .Static .Static⟩)]⟩
      [ValueKind.Element .Dynamic] = none := by
  exact ⟨rfl, rfl⟩

/-- C7 amended: generate_application_compute_kind aborts whenever the
argument arity differs from the number of dynamic parameter applications;
with matching arity it can still abort through aggregation of mismatched
value-kind variants, but it returns a compute kind whenever the generator
set is variant-uniform (inherent and all deltas Classical or quantum with
one value-kind variant). -/
theorem generate_application_arity_and_totality :
    (∀ (g : ApplicationGeneratorSet) (args : List ValueKind),
      g.dynamic_param_applications.length ≠ args.length →
      g.generate_application_compute_kind args = none) ∧
    (∀ (g : ApplicationGeneratorSet) (args : List ValueKind) (b : Bool),
      g.dynamic_param_applications.length = args.length →
      g.inherent.variantOk b = true →
      (∀ pa ∈ g.dynamic_param_applications, pa.variantOk b = true) →
      (g.generate_application_compute_kind args).isSome = true) := by
  constructor
  · intro g args hne
    rw [ApplicationGeneratorSet.generate_application_compute_kind,
      if_neg hne]
  · intro g args b hlen hi hps
    obtain ⟨r, hr, _⟩ := @generateLoop_total b g.dynamic_param_applications args g.inherent hlen.symm hi hps
    rw [ApplicationGeneratorSet.generate_application_compute_kind,
      if_pos hlen, hr]
    rfl

/-- Witness for the amended C7 at a concrete variant-uniform generator set
with matching arity. -/
theorem generate_application_arity_and_totality_witness :
    (ApplicationGeneratorSet.generate_application_compute_kind
      ⟨.Classical, [.Element (.Quantum ⟨{RuntimeFeature.UseOfDynamicBool},
        .Element .Dynamic⟩)]⟩
      [ValueKind.Element .Dynamic]).isSome = true :=
  generate_application_arity_and_totality.2
    ⟨.Classical, [.Element (.Quantum ⟨{RuntimeFeature.UseOfDynamicBool},
      .Element .Dynamic⟩)]⟩
    [ValueKind.Element .Dynamic] false rfl (by decide) (by decide)
